import Mathlib

/-
Verification of telegram_music_downloader.py.

The Python source is shallowly embedded: the classifier, filename
sanitizer, ignore-list loader, per-message sync step and the counter
accumulation are translated into executable Lean definitions.  The
external Telegram client is modelled as data: a message list, and an
oracle assigning to each message the outcome of download_media.  The
channel download directory is modelled as the list of entry names it
contains.
-/

namespace TMD

/-- Python truthiness of an optional string: None and the empty string are
falsy (models occurrences such as `if performer and title`). -/
def truthy (o : Option String) : Bool :=
  match o with
  | none => false
  | some s => !s.isEmpty

/-- The string value of an optional string, with empty default. -/
def pyStr (o : Option String) : String :=
  o.getD ""

/-- The ASCII uppercase-to-lowercase table. -/
def upper_lower_table : List (Char × Char) :=
  [('A', 'a'), ('B', 'b'), ('C', 'c'), ('D', 'd'), ('E', 'e'), ('F', 'f'),
   ('G', 'g'), ('H', 'h'), ('I', 'i'), ('J', 'j'), ('K', 'k'), ('L', 'l'),
   ('M', 'm'), ('N', 'n'), ('O', 'o'), ('P', 'p'), ('Q', 'q'), ('R', 'r'),
   ('S', 's'), ('T', 't'), ('U', 'u'), ('V', 'v'), ('W', 'w'), ('X', 'x'),
   ('Y', 'y'), ('Z', 'z')]

/-- ASCII lowercasing of one character; models Python str.lower restricted
to ASCII, which is the fragment the program relies on. -/
def lowerChar (c : Char) : Char :=
  ((upper_lower_table.find? (fun p => p.1 == c)).map (fun p => p.2)).getD c

/-- Models Python s.lower() (ASCII fragment). -/
def lowerStr (s : String) : String :=
  String.mk (s.toList.map lowerChar)

/-- Models Python s.strip(): drop whitespace from both ends. -/
def pyStrip (s : String) : String :=
  String.mk
    (((s.toList.dropWhile Char.isWhitespace).reverse.dropWhile Char.isWhitespace).reverse)

/-- Models Python s.startswith(p). -/
def strStartsWith (s p : String) : Bool :=
  p.toList.isPrefixOf s.toList

/-- Split a character list on a separator character. -/
def splitOnChar (c : Char) : List Char → List (List Char)
  | [] => [[]]
  | x :: rest =>
    match splitOnChar c rest with
    | [] => [[]]
    | r :: rs => if x = c then [] :: r :: rs else (x :: r) :: rs

/-- AUDIO_EXTENSIONS from line 27 of the source. -/
def AUDIO_EXTENSIONS : List String :=
  [".mp3", ".m4a", ".flac", ".wav", ".ogg", ".opus", ".aac", ".wma"]

/-- The characters replaced by sanitize_filename (line 233). -/
def invalid_chars : List Char :=
  ['<', '>', ':', '"', '/', '\\', '|', '?', '*']

/-- Characters removed at both ends by filename.strip(" ."). -/
def stripSpaceDot (c : Char) : Bool :=
  c = ' ' || c = '.'

/-- Replacement pass of sanitize_filename: the Python loop replaces each
invalid character by an underscore one character class at a time; since
the underscore is not itself an invalid character the sequential
single-character replacements coincide with a pointwise map. -/
def replace_invalid (cs : List Char) : List Char :=
  cs.map (fun c => if c ∈ invalid_chars then '_' else c)

/-- Models str.strip(" ."): drop leading and trailing spaces and dots. -/
def stripEnds (cs : List Char) : List Char :=
  ((cs.dropWhile stripSpaceDot).reverse.dropWhile stripSpaceDot).reverse

/-- sanitize_filename (lines 231-238): replace the invalid characters by
underscores, then strip leading and trailing spaces and dots. -/
def sanitize_filename (filename : String) : String :=
  String.mk (stripEnds (replace_invalid filename.toList))

/-- The final path component, as pathlib computes it (split on slashes,
keep the last part). -/
def pathName (s : String) : String :=
  String.mk ((splitOnChar '/' s.toList).getLastD s.toList)

/-- pathlib suffix of the final component: the segment from the last dot,
provided that dot is neither the first nor the last character of the
name; otherwise the empty string. -/
def pathSuffix (s : String) : String :=
  let cs := (pathName s).toList
  match cs.reverse.findIdx? (fun c => c = '.') with
  | none => ""
  | some j =>
    let i := cs.length - 1 - j
    if 0 < i ∧ i < cs.length - 1 then String.mk (cs.drop i) else ""

/-- is_audio_file (lines 40-45): empty or missing names are not audio;
otherwise the lowercased pathlib suffix must be a known audio extension. -/
def is_audio_file (filename : String) : Bool :=
  if filename.isEmpty then false
  else AUDIO_EXTENSIONS.contains (lowerStr (pathSuffix filename))

/-- The mime_to_ext table of get_file_extension_from_mime (lines 50-60). -/
def mime_to_ext : List (String × String) :=
  [("audio/mpeg", ".mp3"), ("audio/mp4", ".m4a"), ("audio/x-m4a", ".m4a"),
   ("audio/flac", ".flac"), ("audio/wav", ".wav"), ("audio/ogg", ".ogg"),
   ("audio/opus", ".opus"), ("audio/aac", ".aac"), ("audio/x-ms-wma", ".wma")]

/-- get_file_extension_from_mime (lines 48-61): table lookup with default
extension .mp3. -/
def get_file_extension_from_mime (mime_type : String) : String :=
  (((mime_to_ext.find? (fun p => p.1 == mime_type)).map (fun p => p.2))).getD ".mp3"

/-- One document attribute record; file_name is present exactly on
filename attributes. -/
structure DocumentAttribute where
  file_name : Option String
deriving DecidableEq

/-- A Telegram document as the program reads it: attribute list, declared
MIME type, and the audio metadata fields. Absent Python attributes are
modelled as none. -/
structure Document where
  attributes : List DocumentAttribute := []
  mime_type : Option String := none
  performer : Option String := none
  title : Option String := none
deriving DecidableEq

/-- Scan of the attribute list by get_filename_from_document: the first
attribute carrying a truthy file_name wins. -/
def firstFileName : List DocumentAttribute → Option String
  | [] => none
  | a :: rest =>
    match a.file_name with
    | some s => if s.isEmpty then firstFileName rest else some s
    | none => firstFileName rest

/-- get_filename_from_document (lines 64-71). -/
def get_filename_from_document (doc : Document) : Option String :=
  firstFileName doc.attributes

/-- A channel message as the loop reads it: numeric id, the telethon
convenience accessors audio / voice / document, and a flag for any other
kind of media payload (photo, webpage, ...). -/
structure Message where
  id : Nat
  audio : Option Document := none
  voice : Option Document := none
  document : Option Document := none
  otherMedia : Bool := false
deriving DecidableEq

/-- Truthiness of message.media: present iff any media payload exists. -/
def hasMedia (m : Message) : Bool :=
  m.audio.isSome || m.voice.isSome || m.document.isSome || m.otherMedia

/-- The is_audio_mime test of line 158: the document declares a truthy
MIME type and it starts with audio/. -/
def is_audio_mime (doc : Document) : Bool :=
  match doc.mime_type with
  | some mt => !mt.isEmpty && strStartsWith mt "audio/"
  | none => false

/-- The classification and filename-resolution block of the message loop
(lines 120-179).  Returns the raw (unsanitized) filename when the message
is recognised as audio, and none when the loop would continue. -/
def classify (m : Message) : Option String :=
  if !(hasMedia m) then none
  else
    match m.audio with
    | some audio =>
      some (match get_filename_from_document audio with
        | some f => f
        | none =>
          if truthy audio.performer && truthy audio.title then
            pyStr audio.performer ++ " - " ++ pyStr audio.title ++ ".mp3"
          else if truthy audio.title then
            pyStr audio.title ++ ".mp3"
          else
            "audio_" ++ toString m.id ++ ".mp3")
    | none =>
      match m.voice with
      | some voice =>
        some (match get_filename_from_document voice with
          | some f => f
          | none => "voice_" ++ toString m.id ++ ".ogg")
      | none =>
        match m.document with
        | some doc =>
          match get_filename_from_document doc with
          | some f =>
            if is_audio_file f || is_audio_mime doc then some f else none
          | none =>
            if is_audio_mime doc then
              some ("audio_" ++ toString m.id ++
                get_file_extension_from_mime (pyStr doc.mime_type))
            else none
        | none => none

/-- The four run counters (lines 109-112). -/
structure Counters where
  downloaded : Nat := 0
  skipped : Nat := 0
  ignored : Nat := 0
  errors : Nat := 0
deriving DecidableEq, Repr

/-- State threaded through the message loop: the counters and the set of
entry names present in the channel download directory. -/
structure SyncState where
  counters : Counters
  fs : List String
deriving DecidableEq, Repr

/-- Outcome of one client.download_media call, as observed by the
verification code of lines 205-218: the file was written with the given
size, or no file materialised, or one of the caught exception types was
raised (leftFile records whether a partial file was created first). -/
inductive DlOutcome where
  | written (size : Nat)
  | noFile
  | ioError (leftFile : Bool)
deriving DecidableEq

/-- The ignore dictionary: lowercased key to original-case line. -/
def IgnoreDict : Type := String → Option String

/-- Python dict assignment d[k] = v. -/
def dictInsert (d : IgnoreDict) (k v : String) : IgnoreDict :=
  fun k2 => if k2 = k then some v else d k2

/-- The empty dictionary. -/
def emptyDict : IgnoreDict := fun _ => none

/-- The line loop of load_ignore_list (lines 260-264): strip each line,
skip empty and comment lines, and map the lowercased line to its
original-case form. -/
def ignoreFold (d : IgnoreDict) (lines : List String) : IgnoreDict :=
  lines.foldl (fun d line =>
    let l := pyStrip line
    if !l.isEmpty && !(strStartsWith l "#") then dictInsert d (lowerStr l) l
    else d) d

/-- load_ignore_list (lines 241-277) over the modelled file: none means
the file is absent.  Returns the dictionary built from the lines together
with the file content after the call (an absent file is created empty by
touch()). -/
def load_ignore_list (file : Option (List String)) :
    IgnoreDict × Option (List String) :=
  match file with
  | none => (emptyDict, some [])
  | some lines => (ignoreFold emptyDict lines, some lines)

/-- One iteration of the message loop (lines 119-218): classify, sanitize,
ignore-list lookup, existence check, then the download attempt with its
verification and cleanup. -/
def step (ignore : IgnoreDict) (dl : Message → DlOutcome)
    (st : SyncState) (m : Message) : SyncState :=
  match classify m with
  | none => st
  | some raw =>
    let filename := sanitize_filename raw
    if (ignore (lowerStr filename)).isSome then
      { st with counters := { st.counters with ignored := st.counters.ignored + 1 } }
    else if filename ∈ st.fs then
      { st with counters := { st.counters with skipped := st.counters.skipped + 1 } }
    else
      match dl m with
      | DlOutcome.written n =>
        if 0 < n then
          { counters := { st.counters with downloaded := st.counters.downloaded + 1 },
            fs := filename :: st.fs }
        else
          -- empty file: unlinked again, so the directory is net unchanged
          { st with counters := { st.counters with errors := st.counters.errors + 1 } }
      | DlOutcome.noFile =>
        { st with counters := { st.counters with errors := st.counters.errors + 1 } }
      | DlOutcome.ioError _ =>
        -- a partial file, when present, is unlinked: net unchanged
        { st with counters := { st.counters with errors := st.counters.errors + 1 } }

/-- The whole message scan of download_music_files: fold step over the
channel messages. -/
def download_music_files (ignore : IgnoreDict) (dl : Message → DlOutcome) :
    List Message → SyncState → SyncState
  | [], st => st
  | m :: ms, st => download_music_files ignore dl ms (step ignore dl st m)

/-- Outcome of client.get_entity (lines 94-101). -/
inductive ResolveOutcome where
  | ok (title : String)
  | notFound
deriving DecidableEq

/-- How the download phase ends once the channel resolved: normal
completion, KeyboardInterrupt, or one of the exception types caught at
line 300. -/
inductive DownloadPhase where
  | completed
  | interrupted
  | transportError
deriving DecidableEq

/-- main (lines 280-306) together with the sys.exit(1) of line 101:
returns the process exit code paired with a flag recording whether any
network activity happened.  Missing configuration aborts before the
client is created; a resolution failure raises SystemExit which main does
not catch; completion, interruption and the caught transport errors all
fall through to a normal exit. -/
def main (api_id api_hash channel : Option String)
    (resolve : ResolveOutcome) (phase : DownloadPhase) : Nat × Bool :=
  if !(truthy api_id) || !(truthy api_hash) then (1, false)
  else if !(truthy channel) then (1, false)
  else
    match resolve, phase with
    | ResolveOutcome.notFound, _ => (1, true)
    | ResolveOutcome.ok _, _ => (0, true)

/-- A message is saturated with respect to a directory content when every
successful download it could trigger targets a name already present. -/
def saturatedFor (ignore : IgnoreDict) (dl : Message → DlOutcome)
    (fs : List String) (m : Message) : Prop :=
  ∀ raw n, classify m = some raw →
    (ignore (lowerStr (sanitize_filename raw))).isSome = false →
    dl m = DlOutcome.written n → 0 < n → sanitize_filename raw ∈ fs

/-- Channel content for the three-message scenario of the spec: one new
audio file, one audio file listed in the ignore file, one audio file
already present in the directory. -/
def scenarioMsgs : List Message :=
  [{ id := 1, audio := some { attributes := [⟨some "New Song.mp3"⟩] } },
   { id := 2, audio := some { attributes := [⟨some "Track.mp3"⟩] } },
   { id := 3, audio := some { attributes := [⟨some "existing.mp3"⟩] } }]

/-- Ignore dictionary of the scenario, loaded from a one-line file. -/
def scenarioIgnore : IgnoreDict := (load_ignore_list (some ["Track.mp3"])).1

/-- Download oracle of the scenario: every attempted download succeeds
with a non-empty file. -/
def scenarioDl : Message → DlOutcome := fun _ => DlOutcome.written 1000

/-- Message used in the idempotence counterexample: a plain audio message
whose resolved filename is song.mp3. -/
def c7msg : Message := { id := 1, audio := some { attributes := [⟨some "song.mp3"⟩] } }

/-- Download oracle of the idempotence counterexample. -/
def c7dl : Message → DlOutcome := fun _ => DlOutcome.written 1

lemma step_classify_none {ignore : IgnoreDict} {dl : Message → DlOutcome}
    {st : SyncState} {m : Message} (h : classify m = none) :
    step ignore dl st m = st := by
  unfold step
  rw [h]

lemma step_ignored_hit {ignore : IgnoreDict} {dl : Message → DlOutcome}
    {st : SyncState} {m : Message} {raw : String} (h : classify m = some raw)
    (hig : (ignore (lowerStr (sanitize_filename raw))).isSome = true) :
    step ignore dl st m =
      { st with counters := { st.counters with ignored := st.counters.ignored + 1 } } := by
  unfold step
  rw [h]
  simp [hig]

lemma step_skipped {ignore : IgnoreDict} {dl : Message → DlOutcome}
    {st : SyncState} {m : Message} {raw : String} (h : classify m = some raw)
    (hig : (ignore (lowerStr (sanitize_filename raw))).isSome = false)
    (hmem : sanitize_filename raw ∈ st.fs) :
    step ignore dl st m =
      { st with counters := { st.counters with skipped := st.counters.skipped + 1 } } := by
  unfold step
  rw [h]
  simp [hig, hmem]

lemma step_dl_success {ignore : IgnoreDict} {dl : Message → DlOutcome}
    {st : SyncState} {m : Message} {raw : String} {n : Nat} (h : classify m = some raw)
    (hig : (ignore (lowerStr (sanitize_filename raw))).isSome = false)
    (hmem : sanitize_filename raw ∉ st.fs)
    (hdl : dl m = DlOutcome.written n) (hn : 0 < n) :
    step ignore dl st m =
      { counters := { st.counters with downloaded := st.counters.downloaded + 1 },
        fs := sanitize_filename raw :: st.fs } := by
  unfold step
  rw [h]
  simp [hig, hmem, hdl, hn]

lemma step_dl_error {ignore : IgnoreDict} {dl : Message → DlOutcome}
    {st : SyncState} {m : Message} {raw : String} (h : classify m = some raw)
    (hig : (ignore (lowerStr (sanitize_filename raw))).isSome = false)
    (hmem : sanitize_filename raw ∉ st.fs)
    (hdl : dl m = DlOutcome.written 0 ∨ dl m = DlOutcome.noFile ∨ ∃ b, dl m = DlOutcome.ioError b) :
    step ignore dl st m =
      { st with counters := { st.counters with errors := st.counters.errors + 1 } } := by
  unfold step
  rw [h]
  rcases hdl with hdl | hdl | ⟨b, hdl⟩ <;> simp [hig, hmem, hdl]

/-- C1: classify follows the first-match decision order: a message with
no media payload yields none; a message carrying an audio attachment
yields the attribute-declared filename when present, else
performer - title.mp3 when both metadata fields are truthy, else
title.mp3 when only the title is, else audio_id.mp3; a message carrying
a voice attachment and no audio attachment yields the attribute-declared
name when present, else voice_id.ogg. -/
theorem classify_decision_order (m : Message) :
    (hasMedia m = false → classify m = none)
    ∧ (∀ a, m.audio = some a →
        classify m = some ((get_filename_from_document a).getD
          (if truthy a.performer && truthy a.title then
            pyStr a.performer ++ " - " ++ pyStr a.title ++ ".mp3"
          else if truthy a.title then pyStr a.title ++ ".mp3"
          else "audio_" ++ toString m.id ++ ".mp3")))
    ∧ (m.audio = none → ∀ v, m.voice = some v →
        classify m = some ((get_filename_from_document v).getD
          ("voice_" ++ toString m.id ++ ".ogg"))) := by
  refine ⟨?_, ?_, ?_⟩
  · intro h
    simp [classify, h]
  · intro a ha
    have hm : hasMedia m = true := by simp [hasMedia, ha]
    cases hf : get_filename_from_document a <;>
      simp [classify, hm, ha, hf]
  · intro ha v hv
    have hm : hasMedia m = true := by simp [hasMedia, hv]
    cases hf : get_filename_from_document v <;>
      simp [classify, hm, ha, hv, hf]

/-- Witness for C1: a voice message with id 42 and no attribute filename
resolves to voice_42.ogg. -/
theorem classify_decision_order_witness :
    classify { id := 42, voice := some {} } = some "voice_42.ogg" := by
  have h := (classify_decision_order { id := 42, voice := some {} }).2.2 rfl {} rfl
  exact h.trans (by decide)

/-- C2: on the generic-document branch, classify returns audio exactly
when the declared filename has a recognized audio extension or the MIME
type starts with audio/; with an audio MIME type and no declared
filename the name audio_id-ext is synthesized from the MIME table; with
neither match the result is none. -/
theorem classify_document_branch (m : Message) (d : Document)
    (hA : m.audio = none) (hV : m.voice = none) (hD : m.document = some d) :
    ((classify m).isSome =
      (((get_filename_from_document d).map is_audio_file).getD false || is_audio_mime d))
    ∧ (∀ f, get_filename_from_document d = some f →
        classify m = (if is_audio_file f || is_audio_mime d then some f else none))
    ∧ (get_filename_from_document d = none →
        classify m = (if is_audio_mime d then
            some ("audio_" ++ toString m.id ++
              get_file_extension_from_mime (pyStr d.mime_type))
          else none)) := by
  have hm : hasMedia m = true := by simp [hasMedia, hD]
  refine ⟨?_, ?_, ?_⟩
  · cases hf : get_filename_from_document d
    · cases hmime : is_audio_mime d <;>
        simp [classify, hm, hA, hV, hD, hf, hmime]
    · rename_i f
      cases haud : (is_audio_file f || is_audio_mime d) <;>
        simp [classify, hm, hA, hV, hD, hf, haud]
  · intro f hf
    simp [classify, hm, hA, hV, hD, hf]
  · intro hf
    simp [classify, hm, hA, hV, hD, hf]

/-- Witness for C2: a document with MIME audio/flac and no filename
attribute classifies as audio_7.flac, matching the MIME table. -/
theorem classify_document_branch_witness :
    classify { id := 7, document := some { mime_type := some "audio/flac" } } =
      some "audio_7.flac" := by
  have h := (classify_document_branch
    { id := 7, document := some { mime_type := some "audio/flac" } }
    { mime_type := some "audio/flac" } rfl rfl rfl).2.2 rfl
  exact h.trans (by decide)

/-- C3: sanitization replaces each invalid character by an underscore and
strips leading and trailing spaces and dots, as on the two spec examples;
in the sync loop the single sanitized form of the resolved name is what
both the ignore-list lookup and the existence check consult. -/
theorem sanitize_applied_once (ignore : IgnoreDict) (dl : Message → DlOutcome)
    (st : SyncState) (m : Message) (raw : String) (h : classify m = some raw) :
    sanitize_filename "a:b/c*d" = "a_b_c_d"
    ∧ sanitize_filename "  .name.  " = "name"
    ∧ ((step ignore dl st m).counters.ignored = st.counters.ignored + 1
        ↔ (ignore (lowerStr (sanitize_filename raw))).isSome = true)
    ∧ ((ignore (lowerStr (sanitize_filename raw))).isSome = false →
        ((step ignore dl st m).counters.skipped = st.counters.skipped + 1
          ↔ sanitize_filename raw ∈ st.fs)) := by
  refine ⟨by decide, by decide, ?_, ?_⟩
  · cases hig : (ignore (lowerStr (sanitize_filename raw))).isSome
    · simp only [Bool.false_eq_true, iff_false]
      by_cases hmem : sanitize_filename raw ∈ st.fs
      · rw [step_skipped h hig hmem]; simp
      · rcases hdl : dl m with n | _ | b
        · rcases Nat.eq_zero_or_pos n with hn | hn
          · subst hn
            rw [step_dl_error h hig hmem (Or.inl hdl)]; simp
          · rw [step_dl_success h hig hmem hdl hn]; simp
        · rw [step_dl_error h hig hmem (Or.inr (Or.inl hdl))]; simp
        · rw [step_dl_error h hig hmem (Or.inr (Or.inr ⟨b, hdl⟩))]; simp
    · rw [step_ignored_hit h hig]; simp
  · intro hig
    by_cases hmem : sanitize_filename raw ∈ st.fs
    · rw [step_skipped h hig hmem]; simp [hmem]
    · simp only [hmem, iff_false]
      rcases hdl : dl m with n | _ | b
      · rcases Nat.eq_zero_or_pos n with hn | hn
        · subst hn
          rw [step_dl_error h hig hmem (Or.inl hdl)]; simp
        · rw [step_dl_success h hig hmem hdl hn]; simp
      · rw [step_dl_error h hig hmem (Or.inr (Or.inl hdl))]; simp
      · rw [step_dl_error h hig hmem (Or.inr (Or.inr ⟨b, hdl⟩))]; simp

/-- Witness for C3: instantiated on a concrete audio message, empty
ignore dictionary and empty directory. -/
theorem sanitize_applied_once_witness :
    sanitize_filename "a:b/c*d" = "a_b_c_d" ∧ sanitize_filename "  .name.  " = "name" := by
  have h := sanitize_applied_once emptyDict c7dl { counters := {}, fs := [] }
    c7msg "song.mp3" (by decide)
  exact ⟨h.1, h.2.1⟩

/-- C4: the sync engine checks, in strict order, ignore list first (a hit
increments ignored and leaves the filesystem untouched), then existence
of the target (a hit increments skipped and changes nothing), and only
otherwise attempts the download (which settles in exactly one increment
of downloaded or errors); on the three-message scenario the final
counters are downloaded 1, ignored 1, skipped 1, errors 0. -/
theorem sync_check_order :
    (∀ (ignore : IgnoreDict) (dl : Message → DlOutcome) (st : SyncState)
        (m : Message) (raw : String), classify m = some raw →
      (ignore (lowerStr (sanitize_filename raw))).isSome = true →
      step ignore dl st m =
        { st with counters := { st.counters with ignored := st.counters.ignored + 1 } })
    ∧ (∀ (ignore : IgnoreDict) (dl : Message → DlOutcome) (st : SyncState)
        (m : Message) (raw : String), classify m = some raw →
      (ignore (lowerStr (sanitize_filename raw))).isSome = false →
      sanitize_filename raw ∈ st.fs →
      step ignore dl st m =
        { st with counters := { st.counters with skipped := st.counters.skipped + 1 } })
    ∧ (∀ (ignore : IgnoreDict) (dl : Message → DlOutcome) (st : SyncState)
        (m : Message) (raw : String), classify m = some raw →
      (ignore (lowerStr (sanitize_filename raw))).isSome = false →
      sanitize_filename raw ∉ st.fs →
      (step ignore dl st m).counters.ignored = st.counters.ignored
      ∧ (step ignore dl st m).counters.skipped = st.counters.skipped
      ∧ (step ignore dl st m).counters.downloaded + (step ignore dl st m).counters.errors
          = st.counters.downloaded + st.counters.errors + 1)
    ∧ (download_music_files scenarioIgnore scenarioDl scenarioMsgs
        { counters := {}, fs := ["existing.mp3"] }).counters
        = { downloaded := 1, skipped := 1, ignored := 1, errors := 0 } := by
  refine ⟨?_, ?_, ?_, by decide⟩
  · intro ignore dl st m raw h hig
    exact step_ignored_hit h hig
  · intro ignore dl st m raw h hig hmem
    exact step_skipped h hig hmem
  · intro ignore dl st m raw h hig hmem
    rcases hdl : dl m with n | _ | b
    · rcases Nat.eq_zero_or_pos n with hn | hn
      · subst hn
        rw [step_dl_error h hig hmem (Or.inl hdl)]; simp; omega
      · rw [step_dl_success h hig hmem hdl hn]; simp; omega
    · rw [step_dl_error h hig hmem (Or.inr (Or.inl hdl))]; simp; omega
    · rw [step_dl_error h hig hmem (Or.inr (Or.inr ⟨b, hdl⟩))]; simp; omega

/-- Witness for C4: the ignore-hit branch instantiated on a concrete
message and a dictionary holding its name. -/
theorem sync_check_order_witness :
    step (dictInsert emptyDict "song.mp3" "song.mp3") c7dl
      { counters := {}, fs := [] } c7msg
      = { counters := { ignored := 1 }, fs := [] } := by
  have h := sync_check_order.1 (dictInsert emptyDict "song.mp3" "song.mp3") c7dl
    { counters := {}, fs := [] } c7msg "song.mp3" (by decide) (by decide)
  exact h.trans (by decide)

/-- C5: an attempted download with a resulting file of positive size
increments downloaded and adds the file; a zero-length result, a missing
result file, or a caught IO failure increments errors and leaves the
directory net unchanged (the just-created artifact is removed); the scan
then proceeds to the next message unconditionally, and the whole run is a
total function of its inputs, so no per-item failure escapes it. -/
theorem download_outcome_handling (ignore : IgnoreDict) (dl : Message → DlOutcome)
    (st : SyncState) (m : Message) (ms : List Message) (raw : String)
    (h : classify m = some raw)
    (hig : (ignore (lowerStr (sanitize_filename raw))).isSome = false)
    (hmem : sanitize_filename raw ∉ st.fs) :
    (∀ n, dl m = DlOutcome.written n → 0 < n →
      step ignore dl st m =
        { counters := { st.counters with downloaded := st.counters.downloaded + 1 },
          fs := sanitize_filename raw :: st.fs })
    ∧ (dl m = DlOutcome.written 0 →
      step ignore dl st m =
        { st with counters := { st.counters with errors := st.counters.errors + 1 } })
    ∧ (dl m = DlOutcome.noFile →
      step ignore dl st m =
        { st with counters := { st.counters with errors := st.counters.errors + 1 } })
    ∧ (∀ b, dl m = DlOutcome.ioError b →
      step ignore dl st m =
        { st with counters := { st.counters with errors := st.counters.errors + 1 } })
    ∧ download_music_files ignore dl (m :: ms) st
        = download_music_files ignore dl ms (step ignore dl st m) := by
  refine ⟨?_, ?_, ?_, ?_, rfl⟩
  · intro n hdl hn
    exact step_dl_success h hig hmem hdl hn
  · intro hdl
    exact step_dl_error h hig hmem (Or.inl hdl)
  · intro hdl
    exact step_dl_error h hig hmem (Or.inr (Or.inl hdl))
  · intro b hdl
    exact step_dl_error h hig hmem (Or.inr (Or.inr ⟨b, hdl⟩))

/-- Witness for C5: a successful non-empty download of a concrete message
into an empty directory increments downloaded and adds the file. -/
theorem download_outcome_handling_witness :
    step emptyDict c7dl { counters := {}, fs := [] } c7msg
      = { counters := { downloaded := 1 }, fs := ["song.mp3"] } := by
  have h := (download_outcome_handling emptyDict c7dl { counters := {}, fs := [] }
    c7msg [] "song.mp3" (by decide) (by decide) (by decide)).1 1 rfl (by decide)
  exact h.trans (by decide)

lemma step_fs_cases (ignore : IgnoreDict) (dl : Message → DlOutcome)
    (st : SyncState) (m : Message) :
    (step ignore dl st m).fs = st.fs
    ∨ ∃ raw n, classify m = some raw ∧ dl m = DlOutcome.written n ∧ 0 < n
        ∧ (step ignore dl st m).fs = sanitize_filename raw :: st.fs := by
  rcases h : classify m with _ | raw
  · rw [step_classify_none h]
    exact Or.inl rfl
  · cases hig : (ignore (lowerStr (sanitize_filename raw))).isSome
    · by_cases hmem : sanitize_filename raw ∈ st.fs
      · rw [step_skipped h hig hmem]
        exact Or.inl rfl
      · rcases hdl : dl m with n | _ | b
        · rcases Nat.eq_zero_or_pos n with hn | hn
          · subst hn
            rw [step_dl_error h hig hmem (Or.inl hdl)]
            exact Or.inl rfl
          · rw [step_dl_success h hig hmem hdl hn]
            exact Or.inr ⟨raw, n, rfl, rfl, hn, rfl⟩
        · rw [step_dl_error h hig hmem (Or.inr (Or.inl hdl))]
          exact Or.inl rfl
        · rw [step_dl_error h hig hmem (Or.inr (Or.inr ⟨b, hdl⟩))]
          exact Or.inl rfl
    · rw [step_ignored_hit h hig]
      exact Or.inl rfl

lemma step_fs_mono {ignore : IgnoreDict} {dl : Message → DlOutcome}
    {st : SyncState} {m : Message} {x : String} (hx : x ∈ st.fs) :
    x ∈ (step ignore dl st m).fs := by
  rcases step_fs_cases ignore dl st m with heq | ⟨raw, n, _, _, _, heq⟩
  · rw [heq]; exact hx
  · rw [heq]; exact List.mem_cons_of_mem _ hx

lemma run_fs_mono {ignore : IgnoreDict} {dl : Message → DlOutcome} :
    ∀ (msgs : List Message) (st : SyncState) (x : String), x ∈ st.fs →
      x ∈ (download_music_files ignore dl msgs st).fs := by
  intro msgs
  induction msgs with
  | nil => intro st x hx; exact hx
  | cons m ms ih => intro st x hx; exact ih (step ignore dl st m) x (step_fs_mono hx)

/-- C6: after a completed run the directory content equals the content
before the run plus the successfully downloaded non-empty audio files:
every previously present entry is still there, and every entry present
afterwards either was there before or is the sanitized resolved name of
some scanned message whose download returned a file of positive size. -/
theorem target_dir_superset (ignore : IgnoreDict) (dl : Message → DlOutcome)
    (msgs : List Message) (st : SyncState) :
    (∀ f, f ∈ st.fs → f ∈ (download_music_files ignore dl msgs st).fs)
    ∧ (∀ f, f ∈ (download_music_files ignore dl msgs st).fs →
        f ∈ st.fs ∨ ∃ m, m ∈ msgs ∧ ∃ raw n, classify m = some raw
          ∧ f = sanitize_filename raw ∧ dl m = DlOutcome.written n ∧ 0 < n) := by
  constructor
  · intro f hf
    exact run_fs_mono msgs st f hf
  · induction msgs generalizing st with
    | nil => intro f hf; exact Or.inl hf
    | cons m ms ih =>
      intro f hf
      rcases ih (step ignore dl st m) f hf with hf2 | ⟨m2, hm2, rest⟩
      · rcases step_fs_cases ignore dl st m with heq | ⟨raw, n, hc, hdl, hn, heq⟩
        · rw [heq] at hf2
          exact Or.inl hf2
        · rw [heq] at hf2
          rcases List.mem_cons.mp hf2 with rfl | hf3
          · exact Or.inr ⟨m, List.mem_cons_self m ms, raw, n, hc, rfl, hdl, hn⟩
          · exact Or.inl hf3
      · exact Or.inr ⟨m2, List.mem_cons_of_mem m hm2, rest⟩

/-- Witness for C6: with no messages the directory is unchanged, so a
present file stays present. -/
theorem target_dir_superset_witness :
    "kept.mp3" ∈ (download_music_files emptyDict c7dl []
      { counters := {}, fs := ["kept.mp3"] }).fs := by
  exact (target_dir_superset emptyDict c7dl [] { counters := {}, fs := ["kept.mp3"] }).1
    "kept.mp3" (by decide)

lemma saturated_mono {ignore : IgnoreDict} {dl : Message → DlOutcome}
    {fs fs2 : List String} {m : Message} (hsub : ∀ x, x ∈ fs → x ∈ fs2)
    (h : saturatedFor ignore dl fs m) : saturatedFor ignore dl fs2 m := by
  intro raw n hc hig hdl hn
  exact hsub _ (h raw n hc hig hdl hn)

lemma step_saturates (ignore : IgnoreDict) (dl : Message → DlOutcome)
    (st : SyncState) (m : Message) :
    saturatedFor ignore dl (step ignore dl st m).fs m := by
  intro raw n h hig hdl hn
  by_cases hmem : sanitize_filename raw ∈ st.fs
  · exact step_fs_mono hmem
  · rw [step_dl_success h hig hmem hdl hn]
    exact List.mem_cons_self _ _

lemma run_saturates (ignore : IgnoreDict) (dl : Message → DlOutcome) :
    ∀ (msgs : List Message) (st : SyncState) (m : Message), m ∈ msgs →
      saturatedFor ignore dl (download_music_files ignore dl msgs st).fs m := by
  intro msgs
  induction msgs with
  | nil => intro st m hm; exact absurd hm (List.not_mem_nil m)
  | cons m0 ms ih =>
    intro st m hm
    rcases List.mem_cons.mp hm with rfl | hm2
    · exact saturated_mono (fun x hx => run_fs_mono ms (step ignore dl st m) x hx)
        (step_saturates ignore dl st m)
    · exact ih (step ignore dl st m0) m hm2

lemma step_of_saturated {ignore : IgnoreDict} {dl : Message → DlOutcome}
    {st : SyncState} {m : Message} (hm : saturatedFor ignore dl st.fs m) :
    (step ignore dl st m).fs = st.fs
    ∧ (step ignore dl st m).counters.downloaded = st.counters.downloaded := by
  rcases h : classify m with _ | raw
  · rw [step_classify_none h]
    exact ⟨rfl, rfl⟩
  · cases hig : (ignore (lowerStr (sanitize_filename raw))).isSome
    · by_cases hmem : sanitize_filename raw ∈ st.fs
      · rw [step_skipped h hig hmem]
        exact ⟨rfl, rfl⟩
      · rcases hdl : dl m with n | _ | b
        · rcases Nat.eq_zero_or_pos n with hn | hn
          · subst hn
            rw [step_dl_error h hig hmem (Or.inl hdl)]
            exact ⟨rfl, rfl⟩
          · exact absurd (hm raw n h hig hdl hn) hmem
        · rw [step_dl_error h hig hmem (Or.inr (Or.inl hdl))]
          exact ⟨rfl, rfl⟩
        · rw [step_dl_error h hig hmem (Or.inr (Or.inr ⟨b, hdl⟩))]
          exact ⟨rfl, rfl⟩
    · rw [step_ignored_hit h hig]
      exact ⟨rfl, rfl⟩

lemma run_of_saturated {ignore : IgnoreDict} {dl : Message → DlOutcome} :
    ∀ (msgs : List Message) (st : SyncState),
      (∀ m, m ∈ msgs → saturatedFor ignore dl st.fs m) →
      (download_music_files ignore dl msgs st).fs = st.fs
      ∧ (download_music_files ignore dl msgs st).counters.downloaded
          = st.counters.downloaded := by
  intro msgs
  induction msgs with
  | nil => intro st _; exact ⟨rfl, rfl⟩
  | cons m ms ih =>
    intro st hsat
    obtain ⟨hfs, hdc⟩ := step_of_saturated (hsat m (List.mem_cons_self m ms))
    have hrec := ih (step ignore dl st m)
      (by rw [hfs]; exact fun m2 hm2 => hsat m2 (List.mem_cons_of_mem m hm2))
    refine ⟨?_, ?_⟩
    · show (download_music_files ignore dl ms (step ignore dl st m)).fs = st.fs
      rw [hrec.1, hfs]
    · show (download_music_files ignore dl ms (step ignore dl st m)).counters.downloaded
        = st.counters.downloaded
      rw [hrec.2, hdc]

lemma step_errors_mono (ignore : IgnoreDict) (dl : Message → DlOutcome)
    (st : SyncState) (m : Message) :
    st.counters.errors ≤ (step ignore dl st m).counters.errors := by
  rcases h : classify m with _ | raw
  · rw [step_classify_none h]
  · cases hig : (ignore (lowerStr (sanitize_filename raw))).isSome
    · by_cases hmem : sanitize_filename raw ∈ st.fs
      · rw [step_skipped h hig hmem]
      · rcases hdl : dl m with n | _ | b
        · rcases Nat.eq_zero_or_pos n with hn | hn
          · subst hn
            rw [step_dl_error h hig hmem (Or.inl hdl)]
            exact Nat.le_succ _
          · rw [step_dl_success h hig hmem hdl hn]
        · rw [step_dl_error h hig hmem (Or.inr (Or.inl hdl))]
          exact Nat.le_succ _
        · rw [step_dl_error h hig hmem (Or.inr (Or.inr ⟨b, hdl⟩))]
          exact Nat.le_succ _
    · rw [step_ignored_hit h hig]

lemma run_errors_mono (ignore : IgnoreDict) (dl : Message → DlOutcome) :
    ∀ (msgs : List Message) (st : SyncState),
      st.counters.errors ≤ (download_music_files ignore dl msgs st).counters.errors := by
  intro msgs
  induction msgs with
  | nil => intro st; exact Nat.le_refl _
  | cons m ms ih =>
    intro st
    exact Nat.le_trans (step_errors_mono ignore dl st m) (ih (step ignore dl st m))

lemma run_cons (ignore : IgnoreDict) (dl : Message → DlOutcome)
    (m : Message) (ms : List Message) (st : SyncState) :
    download_music_files ignore dl (m :: ms) st
      = download_music_files ignore dl ms (step ignore dl st m) := rfl

lemma run_second_skipped (ignore : IgnoreDict) (dl : Message → DlOutcome) :
    ∀ (msgs : List Message) (st1 : SyncState) (c2 : Counters),
      (download_music_files ignore dl msgs st1).counters.errors = st1.counters.errors →
      (download_music_files ignore dl msgs
          { counters := c2,
            fs := (download_music_files ignore dl msgs st1).fs }).counters.skipped
        + st1.counters.downloaded + st1.counters.skipped
      = c2.skipped
        + (download_music_files ignore dl msgs st1).counters.downloaded
        + (download_music_files ignore dl msgs st1).counters.skipped := by
  intro msgs
  induction msgs with
  | nil =>
    intro st1 c2 herr
    rfl
  | cons m ms ih =>
    intro st1 c2 herr
    rw [run_cons] at herr ⊢
    rw [run_cons]
    have herrStep : (step ignore dl st1 m).counters.errors = st1.counters.errors := by
      have h1 := step_errors_mono ignore dl st1 m
      have h2 := run_errors_mono ignore dl ms (step ignore dl st1 m)
      omega
    have herrTail : (download_music_files ignore dl ms (step ignore dl st1 m)).counters.errors
        = (step ignore dl st1 m).counters.errors := by
      rw [herrStep, herr]
    rcases h : classify m with _ | raw
    · have e1 : step ignore dl st1 m = st1 := step_classify_none h
      rw [e1] at herrTail ⊢
      have e2 : step ignore dl
          { counters := c2, fs := (download_music_files ignore dl ms st1).fs } m
          = { counters := c2, fs := (download_music_files ignore dl ms st1).fs } :=
        step_classify_none h
      rw [e2]
      exact ih st1 c2 herrTail
    · cases hig : (ignore (lowerStr (sanitize_filename raw))).isSome
      · by_cases hmem : sanitize_filename raw ∈ st1.fs
        · -- first run skips this message
          have e1 : step ignore dl st1 m =
              { st1 with counters := { st1.counters with skipped := st1.counters.skipped + 1 } } :=
            step_skipped h hig hmem
          rw [e1] at herrTail ⊢
          have hmemF : sanitize_filename raw ∈ (download_music_files ignore dl ms
              { st1 with counters := { st1.counters with skipped := st1.counters.skipped + 1 } }).fs :=
            run_fs_mono ms _ _ hmem
          have e2 := @step_skipped ignore dl
            { counters := c2, fs := (download_music_files ignore dl ms
              { st1 with counters := { st1.counters with skipped := st1.counters.skipped + 1 } }).fs }
            m raw h hig hmemF
          rw [e2]
          have hrec := ih
            { st1 with counters := { st1.counters with skipped := st1.counters.skipped + 1 } }
            { c2 with skipped := c2.skipped + 1 } herrTail
          simp only at hrec ⊢
          omega
        · -- first run attempts the download; absence of new errors forces success
          rcases hdl : dl m with n | _ | b
          · rcases Nat.eq_zero_or_pos n with hn | hn
            · exfalso
              subst hn
              rw [step_dl_error h hig hmem (Or.inl hdl)] at herrStep
              simp only at herrStep
              omega
            · have e1 : step ignore dl st1 m =
                  { counters := { st1.counters with downloaded := st1.counters.downloaded + 1 },
                    fs := sanitize_filename raw :: st1.fs } :=
                step_dl_success h hig hmem hdl hn
              rw [e1] at herrTail ⊢
              have hmemF : sanitize_filename raw ∈ (download_music_files ignore dl ms
                  { counters := { st1.counters with downloaded := st1.counters.downloaded + 1 },
                    fs := sanitize_filename raw :: st1.fs }).fs :=
                run_fs_mono ms _ _ (List.mem_cons_self _ _)
              have e2 := @step_skipped ignore dl
                { counters := c2, fs := (download_music_files ignore dl ms
                  { counters := { st1.counters with downloaded := st1.counters.downloaded + 1 },
                    fs := sanitize_filename raw :: st1.fs }).fs }
                m raw h hig hmemF
              rw [e2]
              have hrec := ih
                { counters := { st1.counters with downloaded := st1.counters.downloaded + 1 },
                  fs := sanitize_filename raw :: st1.fs }
                { c2 with skipped := c2.skipped + 1 } herrTail
              simp only at hrec ⊢
              omega
          · exfalso
            rw [step_dl_error h hig hmem (Or.inr (Or.inl hdl))] at herrStep
            simp only at herrStep
            omega
          · exfalso
            rw [step_dl_error h hig hmem (Or.inr (Or.inr ⟨b, hdl⟩))] at herrStep
            simp only at herrStep
            omega
      · -- both runs ignore this message
        have e1 : step ignore dl st1 m =
            { st1 with counters := { st1.counters with ignored := st1.counters.ignored + 1 } } :=
          step_ignored_hit h hig
        rw [e1] at herrTail ⊢
        have e2 := @step_ignored_hit ignore dl
          { counters := c2, fs := (download_music_files ignore dl ms
            { st1 with counters := { st1.counters with ignored := st1.counters.ignored + 1 } }).fs }
          m raw h hig
        rw [e2]
        have hrec := ih
          { st1 with counters := { st1.counters with ignored := st1.counters.ignored + 1 } }
          { c2 with ignored := c2.ignored + 1 } herrTail
        simp only at hrec ⊢
        omega

/-- C7 counterexample: one audio message whose file already exists before
the first run.  Both runs leave the file alone: the second run reports
skipped 1 while the first run reports downloaded 0, so the skipped count
of the second run does not equal the downloaded count of the first. -/
theorem run_twice_counterexample :
    ¬ (let st1 := download_music_files emptyDict c7dl [c7msg]
          { counters := {}, fs := ["song.mp3"] }
       let st2 := download_music_files emptyDict c7dl [c7msg]
          { counters := {}, fs := st1.fs }
       st2.counters.downloaded = 0 ∧ st2.counters.skipped = st1.counters.downloaded) := by
  decide

/-- C7 amended: running the scan twice over the same messages, the same
download behaviour and the directory left by the first run yields
downloaded 0 on the second run; and when the first run finished without
errors, the skipped count of the second run equals the downloaded count
of the first run plus the skipped count of the first run. -/
theorem run_twice_amended (ignore : IgnoreDict) (dl : Message → DlOutcome)
    (msgs : List Message) (fs0 : List String) :
    (download_music_files ignore dl msgs
        { counters := {},
          fs := (download_music_files ignore dl msgs
            { counters := {}, fs := fs0 }).fs }).counters.downloaded = 0
    ∧ ((download_music_files ignore dl msgs
          { counters := {}, fs := fs0 }).counters.errors = 0 →
        (download_music_files ignore dl msgs
          { counters := {},
            fs := (download_music_files ignore dl msgs
              { counters := {}, fs := fs0 }).fs }).counters.skipped
        = (download_music_files ignore dl msgs
            { counters := {}, fs := fs0 }).counters.downloaded
          + (download_music_files ignore dl msgs
              { counters := {}, fs := fs0 }).counters.skipped) := by
  constructor
  · have hsat : ∀ m, m ∈ msgs → saturatedFor ignore dl
        (download_music_files ignore dl msgs { counters := {}, fs := fs0 }).fs m :=
      fun m hm => run_saturates ignore dl msgs { counters := {}, fs := fs0 } m hm
    exact (run_of_saturated msgs
      { counters := {},
        fs := (download_music_files ignore dl msgs { counters := {}, fs := fs0 }).fs }
      hsat).2
  · intro herr
    have h := run_second_skipped ignore dl msgs { counters := {}, fs := fs0 } {} herr
    simp only at h
    omega

/-- Witness for C7 amended: one new audio message into an empty
directory; the first run downloads it without error, the second run
skips it. -/
theorem run_twice_amended_witness :
    (download_music_files emptyDict c7dl [c7msg]
        { counters := {},
          fs := (download_music_files emptyDict c7dl [c7msg]
            { counters := {}, fs := [] }).fs }).counters.downloaded = 0
    ∧ (download_music_files emptyDict c7dl [c7msg]
        { counters := {},
          fs := (download_music_files emptyDict c7dl [c7msg]
            { counters := {}, fs := [] }).fs }).counters.skipped
      = (download_music_files emptyDict c7dl [c7msg]
          { counters := {}, fs := [] }).counters.downloaded
        + (download_music_files emptyDict c7dl [c7msg]
            { counters := {}, fs := [] }).counters.skipped := by
  have h := run_twice_amended emptyDict c7dl [c7msg] []
  exact ⟨h.1, h.2 (by decide)⟩

lemma dictInsert_self (d : IgnoreDict) (k v : String) : dictInsert d k v k = some v := by
  simp [dictInsert]

lemma dictInsert_other (d : IgnoreDict) (k v k2 : String) (h : k2 ≠ k) :
    dictInsert d k v k2 = d k2 := by
  simp [dictInsert, h]

lemma ignoreFold_cons (d : IgnoreDict) (line : String) (ls : List String) :
    ignoreFold d (line :: ls) =
      ignoreFold (if !(pyStrip line).isEmpty && !(strStartsWith (pyStrip line) "#")
        then dictInsert d (lowerStr (pyStrip line)) (pyStrip line) else d) ls := rfl

lemma ignoreFold_find : ∀ (ls : List String) (d : IgnoreDict) (k : String),
    (ignoreFold d ls) k = d k
    ∨ ∃ l2, l2 ∈ ls ∧ (pyStrip l2).isEmpty = false
        ∧ strStartsWith (pyStrip l2) "#" = false
        ∧ lowerStr (pyStrip l2) = k ∧ (ignoreFold d ls) k = some (pyStrip l2) := by
  intro ls
  induction ls with
  | nil => intro d k; exact Or.inl rfl
  | cons l ls2 ih =>
    intro d k
    rw [ignoreFold_cons]
    by_cases hgood : (!(pyStrip l).isEmpty && !(strStartsWith (pyStrip l) "#")) = true
    · rw [if_pos hgood]
      have hgood2 : (pyStrip l).isEmpty = false ∧ strStartsWith (pyStrip l) "#" = false := by
        simpa using hgood
      rcases ih (dictInsert d (lowerStr (pyStrip l)) (pyStrip l)) k with h1 | ⟨l2, hm, h2⟩
      · by_cases hk : k = lowerStr (pyStrip l)
        · subst hk
          exact Or.inr ⟨l, List.mem_cons_self _ _, hgood2.1, hgood2.2, rfl,
            h1.trans (dictInsert_self _ _ _)⟩
        · exact Or.inl (h1.trans (dictInsert_other _ _ _ _ hk))
      · exact Or.inr ⟨l2, List.mem_cons_of_mem _ hm, h2⟩
    · rw [if_neg hgood]
      rcases ih d k with h1 | ⟨l2, hm, h2⟩
      · exact Or.inl h1
      · exact Or.inr ⟨l2, List.mem_cons_of_mem _ hm, h2⟩

lemma ignoreFold_sets : ∀ (ls : List String) (d : IgnoreDict) (line : String),
    line ∈ ls → (pyStrip line).isEmpty = false → strStartsWith (pyStrip line) "#" = false →
    ∃ orig, (ignoreFold d ls) (lowerStr (pyStrip line)) = some orig
      ∧ lowerStr orig = lowerStr (pyStrip line)
      ∧ ∃ l2, l2 ∈ ls ∧ pyStrip l2 = orig := by
  intro ls
  induction ls with
  | nil => intro d line h; exact absurd h (List.not_mem_nil _)
  | cons l ls2 ih =>
    intro d line hmem he hh
    rw [ignoreFold_cons]
    rcases List.mem_cons.mp hmem with rfl | hmem2
    · have hgood : (!(pyStrip line).isEmpty && !(strStartsWith (pyStrip line) "#")) = true := by
        simp [he, hh]
      rw [if_pos hgood]
      rcases ignoreFold_find ls2 (dictInsert d (lowerStr (pyStrip line)) (pyStrip line))
          (lowerStr (pyStrip line)) with h1 | ⟨l2, hm2, _, _, hk2, hv2⟩
      · exact ⟨pyStrip line, h1.trans (dictInsert_self _ _ _), rfl,
          line, List.mem_cons_self _ _, rfl⟩
      · exact ⟨pyStrip l2, hv2, hk2, l2, List.mem_cons_of_mem _ hm2, rfl⟩
    · obtain ⟨orig, h1, h2, l2, hm3, h4⟩ := ih _ line hmem2 he hh
      exact ⟨orig, h1, h2, l2, List.mem_cons_of_mem _ hm3, h4⟩

/-- C8: loading from an absent file creates it empty and yields an empty
dictionary; loading from a present file turns every line that is
non-empty and not #-prefixed after stripping into a lowercased key mapped
to the original-case stripped form of such a line; at runtime the lookup
is case-insensitive, so the entry Track.mp3 suppresses the download of a
message resolving to track.mp3. -/
theorem ignore_list_loading :
    ((load_ignore_list none).2 = some [] ∧ ∀ k, (load_ignore_list none).1 k = none)
    ∧ (∀ (lines : List String) (line : String), line ∈ lines →
        (pyStrip line).isEmpty = false → strStartsWith (pyStrip line) "#" = false →
        ∃ orig, (load_ignore_list (some lines)).1 (lowerStr (pyStrip line)) = some orig
          ∧ lowerStr orig = lowerStr (pyStrip line)
          ∧ ∃ l2, l2 ∈ lines ∧ pyStrip l2 = orig)
    ∧ (step (load_ignore_list (some ["Track.mp3"])).1 (fun _ => DlOutcome.written 1000)
        { counters := {}, fs := [] }
        { id := 9, audio := some { attributes := [⟨some "track.mp3"⟩] } }
        = { counters := { ignored := 1 }, fs := [] }) := by
  refine ⟨⟨rfl, fun k => rfl⟩, ?_, by decide⟩
  intro lines line hmem he hh
  exact ignoreFold_sets lines emptyDict line hmem he hh

/-- Witness for C8: the single line Track.mp3 produces the key track.mp3
mapped to its original-case form. -/
theorem ignore_list_loading_witness :
    ∃ orig, (load_ignore_list (some ["Track.mp3"])).1 (lowerStr (pyStrip "Track.mp3"))
        = some orig
      ∧ lowerStr orig = lowerStr (pyStrip "Track.mp3")
      ∧ ∃ l2, l2 ∈ ["Track.mp3"] ∧ pyStrip l2 = orig :=
  ignore_list_loading.2.1 ["Track.mp3"] "Track.mp3" (by decide) (by decide) (by decide)

/-- C9: the process exits with code 1 exactly when a required
configuration value is falsy or the channel cannot be resolved; a missing
configuration value aborts before any network activity; with full
configuration and a resolved channel the exit code is 0, both on normal
completion and on user interruption. -/
theorem exit_code_policy (api_id api_hash channel : Option String)
    (r : ResolveOutcome) (p : DownloadPhase) :
    ((main api_id api_hash channel r p).1 = 1 ↔
      (truthy api_id = false ∨ truthy api_hash = false ∨ truthy channel = false
        ∨ r = ResolveOutcome.notFound))
    ∧ ((truthy api_id = false ∨ truthy api_hash = false ∨ truthy channel = false) →
        (main api_id api_hash channel r p).2 = false)
    ∧ (∀ t, r = ResolveOutcome.ok t →
        truthy api_id = true → truthy api_hash = true → truthy channel = true →
        (main api_id api_hash channel r p).1 = 0) := by
  cases h1 : truthy api_id <;> cases h2 : truthy api_hash <;> cases h3 : truthy channel <;>
    cases r <;> simp [main, h1, h2, h3]

/-- Witness for C9: a missing API_ID exits 1 with no network activity; a
fully configured run interrupted by the user exits 0. -/
theorem exit_code_policy_witness :
    (main none (some "h") (some "c") ResolveOutcome.notFound DownloadPhase.completed).1 = 1
    ∧ (main none (some "h") (some "c") ResolveOutcome.notFound DownloadPhase.completed).2 = false
    ∧ (main (some "1") (some "h") (some "c") (ResolveOutcome.ok "T")
        DownloadPhase.interrupted).1 = 0 := by
  refine ⟨?_, ?_, ?_⟩
  · exact (exit_code_policy none (some "h") (some "c")
      ResolveOutcome.notFound DownloadPhase.completed).1.mpr (Or.inl (by decide))
  · exact (exit_code_policy none (some "h") (some "c")
      ResolveOutcome.notFound DownloadPhase.completed).2.1 (Or.inl (by decide))
  · exact (exit_code_policy (some "1") (some "h") (some "c")
      (ResolveOutcome.ok "T") DownloadPhase.interrupted).2.2 "T" rfl
      (by decide) (by decide) (by decide)

lemma lowerStr_toList (s : String) : (lowerStr s).toList = s.toList.map lowerChar := rfl

lemma sanitize_toList (s : String) :
    (sanitize_filename s).toList = stripEnds (replace_invalid s.toList) := rfl

lemma lowerChar_cases (c : Char) :
    lowerChar c = c ∨ ∃ p, p ∈ upper_lower_table ∧ lowerChar c = p.2 := by
  unfold lowerChar
  cases hf : upper_lower_table.find? (fun p => p.1 == c) with
  | none => exact Or.inl rfl
  | some p => exact Or.inr ⟨p, List.mem_of_find?_eq_some hf, rfl⟩

lemma lowerChar_not_invalid {c : Char} (h : c ∉ invalid_chars) :
    lowerChar c ∉ invalid_chars := by
  rcases lowerChar_cases c with heq | ⟨p, hp, heq⟩
  · rw [heq]; exact h
  · fin_cases hp <;> (rw [heq]; decide)

lemma lowerChar_invalid {c : Char} (h : c ∈ invalid_chars) : lowerChar c = c := by
  fin_cases h <;> decide

lemma lowerChar_eq_dot {c : Char} (h : lowerChar c = '.') : c = '.' := by
  rcases lowerChar_cases c with heq | ⟨p, hp, heq⟩
  · rw [← heq]; exact h
  · fin_cases hp <;> (rw [heq] at h; exact absurd h (by decide))

lemma head?_dropWhile_false {p : Char → Bool} :
    ∀ {l : List Char} {a : Char}, (l.dropWhile p).head? = some a → p a = false := by
  intro l
  induction l with
  | nil => intro a h; simp at h
  | cons x xs ih =>
    intro a h
    by_cases hx : p x
    · simp [List.dropWhile_cons, hx] at h
      exact ih h
    · simp [List.dropWhile_cons, hx] at h
      subst h
      simpa using hx

lemma sanitize_chars {raw : String} {c : Char}
    (h : c ∈ (sanitize_filename raw).toList) : c ∉ invalid_chars := by
  rw [sanitize_toList] at h
  unfold stripEnds at h
  rw [List.mem_reverse] at h
  have h3 := List.dropWhile_subset stripSpaceDot h
  rw [List.mem_reverse] at h3
  have h4 := List.dropWhile_subset stripSpaceDot h3
  unfold replace_invalid at h4
  rw [List.mem_map] at h4
  obtain ⟨a, _, hEq⟩ := h4
  by_cases hainv : a ∈ invalid_chars
  · rw [if_pos hainv] at hEq
    subst hEq
    decide
  · rw [if_neg hainv] at hEq
    subst hEq
    exact hainv

lemma sanitize_last {raw : String} {c : Char}
    (h : (sanitize_filename raw).toList.getLast? = some c) : stripSpaceDot c = false := by
  rw [sanitize_toList] at h
  unfold stripEnds at h
  rw [List.getLast?_reverse] at h
  exact head?_dropWhile_false h

/-- C10: an ignore-list line whose stripped text contains one of the
characters replaced by sanitization, or ends with a dot, can never match
a lookup: lookup keys are lowercased sanitized filenames, which contain
no such character and never end with a dot, so the loaded entry is dead
and the listed file is downloaded anyway. -/
theorem dead_ignore_entries (line raw : String)
    (h : (∃ c, c ∈ (pyStrip line).toList ∧ c ∈ invalid_chars)
       ∨ (pyStrip line).toList.getLast? = some '.') :
    lowerStr (pyStrip line) ≠ lowerStr (sanitize_filename raw)
    ∧ (load_ignore_list (some [line])).1 (lowerStr (sanitize_filename raw)) = none := by
  have hneq : lowerStr (pyStrip line) ≠ lowerStr (sanitize_filename raw) := by
    intro heq
    have heqL : (pyStrip line).toList.map lowerChar
        = (sanitize_filename raw).toList.map lowerChar := by
      have := congrArg String.toList heq
      rw [lowerStr_toList, lowerStr_toList] at this
      exact this
    rcases h with ⟨c, hc, hcinv⟩ | hdot
    · have h1 : c ∈ (pyStrip line).toList.map lowerChar := by
        rw [List.mem_map]
        exact ⟨c, hc, lowerChar_invalid hcinv⟩
      rw [heqL, List.mem_map] at h1
      obtain ⟨a, ha, haeq⟩ := h1
      have hanot := lowerChar_not_invalid (sanitize_chars ha)
      rw [haeq] at hanot
      exact hanot hcinv
    · have h1 : ((pyStrip line).toList.map lowerChar).getLast? = some '.' := by
        rw [List.getLast?_map, hdot]
        rfl
      rw [heqL, List.getLast?_map] at h1
      cases hlast : (sanitize_filename raw).toList.getLast? with
      | none => rw [hlast] at h1; exact absurd h1 (by simp)
      | some a =>
        rw [hlast, Option.map_some'] at h1
        injection h1 with h1
        have hlemma := sanitize_last hlast
        rw [lowerChar_eq_dot h1] at hlemma
        exact absurd hlemma (by decide)
  refine ⟨hneq, ?_⟩
  show ignoreFold emptyDict [line] (lowerStr (sanitize_filename raw)) = none
  rcases ignoreFold_find [line] emptyDict (lowerStr (sanitize_filename raw))
      with h1 | ⟨l2, hm, _, _, hk, _⟩
  · exact h1
  · rw [List.mem_singleton.mp hm] at hk
    exact absurd hk hneq

/-- Witness for C10: the entry bad:name.mp3 never matches, not even the
message whose raw filename is bad:name.mp3 itself. -/
theorem dead_ignore_entries_witness :
    (load_ignore_list (some ["bad:name.mp3"])).1
      (lowerStr (sanitize_filename "bad:name.mp3")) = none :=
  (dead_ignore_entries "bad:name.mp3" "bad:name.mp3"
    (Or.inl ⟨':', by decide, by decide⟩)).2

end TMD
